import Mathlib

/-!
Verification of the symbol-graph core of the contextSlicer repository.

The development shallowly embeds, in Lean, the modules
  src/features/context-slicer/logic/symbolGraph/pathResolver.ts,
  src/features/context-slicer/logic/symbolGraph/tracer.ts,
  src/features/context-slicer/logic/symbolGraph/astUtils.ts (resolveExport),
  packages/core/src/logic/symbolGraph/passes/2_discoverSymbols.ts,
  packages/core/src/logic/symbolGraph/passes/3_linkDependencies.ts,
  packages/core/src/logic/symbolGraph/index.ts (buildSymbolGraph),
and proves the testable properties of the specification against the embedding.

Modelling conventions:
- JavaScript strings are Lean `String` (paths are ASCII, so UTF-16 index
  arithmetic coincides with code-point arithmetic); the handful of
  `String.prototype` operations the source uses are re-implemented over
  `String.data` so that concrete computations reduce in the kernel.
- JavaScript `Map`s are association lists (`List (key × value)`); `Map`
  iteration order is insertion order, which the list order models.
- JavaScript `Set`s of strings are duplicate-free `List String` in insertion
  order (`setAdd` appends only if absent, exactly like `Set.add`).
- The mutation of `PathResolver.resolutionCache` and of the shared `errors`
  array is modelled by threading a `ResolverState` value through every call.
- Babel ASTs are abstracted to the statement shapes the three graph passes
  inspect (imports, re-exports, declarations); see `AstNode` below.
-/

namespace ContextSlicer

/-- JavaScript `s.split(sep)` for a one-character separator: splits on every
occurrence, keeping empty segments (so `"a//b".split('/') = ["a","","b"]`). -/
def strSplitOn (c : Char) (s : String) : List String :=
  (s.data.splitOn c).map fun cs => ⟨cs⟩

/-- JavaScript `s.startsWith(t)`. -/
def strStartsWith (s t : String) : Bool :=
  t.data.isPrefixOf s.data

/-- JavaScript `s.endsWith(t)`. -/
def strEndsWith (s t : String) : Bool :=
  t.data.isSuffixOf s.data

/-- Remove the last `n` characters of a string. -/
def strDropRight (s : String) (n : Nat) : String :=
  ⟨s.data.take (s.data.length - n)⟩

/-- Remove the first `n` characters of a string (JavaScript `s.substring(n)`). -/
def strDrop (s : String) (n : Nat) : String :=
  ⟨s.data.drop n⟩

/-- JavaScript `s.includes(c)` for a single character. -/
def strHasChar (s : String) (c : Char) : Bool :=
  s.data.contains c

/-- The browser-safe `path.join` at the bottom of pathResolver.ts:
`parts.join('/')`. -/
def pathJoin (parts : List String) : String :=
  String.intercalate "/" parts

/-- The browser-safe `path.normalize` at the bottom of pathResolver.ts: split on
`/`; skip `.` and empty segments; on `..` pop the stack when non-empty (extra
`..` segments at the root are silently discarded); re-join with `/`. -/
def pathNormalize (p : String) : String :=
  let parts := strSplitOn '/' p
  let stack := parts.foldl
    (fun stack part =>
      if part = "." ∨ part = "" then stack
      else if part = ".." then stack.dropLast
      else stack ++ [part])
    []
  String.intercalate "/" stack

/-- JavaScript `p.substring(0, p.lastIndexOf('/'))` (used both for the directory
of a file path and for the package root of an alias target); yields `""` when
the string contains no `/`. -/
def dirUpToLastSlash (p : String) : String :=
  String.intercalate "/" ((strSplitOn '/' p).dropLast)

/-- The specifier-extension strip in `PathResolver.resolve`:
`importPath.replace(/\.(ts|tsx|js|jsx)$/, '')`. -/
def stripSourceExt (p : String) : String :=
  if strEndsWith p ".tsx" then strDropRight p 4
  else if strEndsWith p ".jsx" then strDropRight p 4
  else if strEndsWith p ".ts" then strDropRight p 3
  else if strEndsWith p ".js" then strDropRight p 3
  else p

/-- One entry of `PathResolver.packageRoots`: an alias name together with the
containing directory of its target path. -/
structure PackageRoot where
  name : String
  root : String
deriving DecidableEq

/-- The immutable part of a `PathResolver` instance: the known file set and the
alias table (`for..in` over a plain object visits string keys in insertion
order, which the list order models). -/
structure PathResolver where
  filePaths : List String
  aliasMap : List (String × String)

/-- The `packageRoots` index computed in the `PathResolver` constructor. -/
def PathResolver.packageRoots (r : PathResolver) : List PackageRoot :=
  r.aliasMap.map fun a => ⟨a.1, dirUpToLastSlash a.2⟩

/-- The mutable state of a `PathResolver` instance plus the shared diagnostics
array: `resolutionCache` (keyed by `fromPath ++ "|" ++ importPath`) and the
`errors` array every `resolve` call may append to. -/
structure ResolverState where
  cache : List (String × Option String)
  errors : List String
deriving DecidableEq

/-- `PathResolver.getPackageRoot`: filter the package roots that are a prefix of
the path, stable-sort descending by root length, and take the first — i.e. the
earliest root of maximal length, or `null` when none matches. -/
def getPackageRoot (roots : List PackageRoot) (filePath : String) : Option String :=
  match roots.filter (fun pr => strStartsWith filePath pr.root) with
  | [] => none
  | m :: ms =>
    some (ms.foldl (fun best pr => if pr.root.length > best.root.length then pr else best) m).root

/-- The extension list probed by `PathResolver.resolve`. -/
def extensionsList : List String := [".ts", ".tsx", ".js", ".jsx", ""]

/-- The `attempts` array of `PathResolver.resolve`:
`extensions.flatMap(ext => [resolvedPath + ext, resolvedPath + "/index" + ext])`. -/
def probeAttempts (resolvedPath : String) : List String :=
  extensionsList.flatMap fun ext => [resolvedPath ++ ext, resolvedPath ++ "/index" ++ ext]

/-- The final probing loop of `PathResolver.resolve`: return the first attempt
present in the known file set and cache it, else cache and return `null`. -/
def finishResolve (r : PathResolver) (s : ResolverState) (cacheKey resolvedPath : String) :
    Option String × ResolverState :=
  match (probeAttempts resolvedPath).find? (fun attempt => r.filePaths.contains attempt) with
  | some attempt => (some attempt, { s with cache := (cacheKey, some attempt) :: s.cache })
  | none => (none, { s with cache := (cacheKey, none) :: s.cache })

/-- The diagnostic string pushed for an illegal cross-package relative import. -/
def crossPackageDiag (fromPath importPath : String) : String :=
  "[Invalid Import] File '" ++ fromPath ++
    "' cannot use a relative path to import from another package: '" ++ importPath ++
    "'. Use an alias instead."

/-- `PathResolver.resolve(fromPath, importPath, errors)`. Checks the memoization
cache; strips a trailing source extension; substitutes the first matching alias,
or resolves a `.`-relative specifier against the importing file's directory
(rejecting, with a diagnostic, a relative import whose source and target fall
under different truthy package roots), or returns `null` for a bare specifier;
finally probes the extension/index candidates against the known file set. -/
def PathResolver.resolve (r : PathResolver) (s : ResolverState) (fromPath importPath : String) :
    Option String × ResolverState :=
  let cacheKey := fromPath ++ "|" ++ importPath
  match s.cache.lookup cacheKey with
  | some v => (v, s)
  | none =>
    let importPathWithoutExt := stripSourceExt importPath
    match r.aliasMap.find? (fun a => strStartsWith importPathWithoutExt a.1) with
    | some a =>
      let resolvedPath := pathNormalize (pathJoin [a.2, strDrop importPathWithoutExt a.1.length])
      finishResolve r s cacheKey resolvedPath
    | none =>
      if strStartsWith importPathWithoutExt "." then
        let fromDir := dirUpToLastSlash fromPath
        let candidatePath := pathNormalize (pathJoin [fromDir, importPathWithoutExt])
        -- `if (fromPackage && toPackage && fromPackage !== toPackage)`: an empty
        -- root string is falsy in JavaScript, exactly like a null.
        match getPackageRoot r.packageRoots fromPath, getPackageRoot r.packageRoots candidatePath with
        | some fromPackage, some toPackage =>
          if fromPackage ≠ "" ∧ toPackage ≠ "" ∧ fromPackage ≠ toPackage then
            (none, { cache := (cacheKey, none) :: s.cache,
                     errors := s.errors ++ [crossPackageDiag fromPath importPath] })
          else finishResolve r s cacheKey candidatePath
        | _, _ => finishResolve r s cacheKey candidatePath
      else
        (none, { s with cache := (cacheKey, none) :: s.cache })

example :
    (PathResolver.resolve ⟨["b.ts"], []⟩ ⟨[], []⟩ "a.ts" "../../b").1 = some "b.ts" := by
  decide

example :
    (PathResolver.resolve ⟨["packages/a/src/x.ts", "packages/b/src/y.ts"],
        [("@a", "packages/a/src"), ("@b", "packages/b/src")]⟩ ⟨[], []⟩
      "packages/a/src/x.ts" "../../b/src/y").2.errors =
      [crossPackageDiag "packages/a/src/x.ts" "../../b/src/y"] := by
  decide

/-! ## The symbol graph data model (types.ts) -/

/-- A node of the symbol graph (types.ts `SymbolNode`); the JavaScript
`Set<string>` edge fields are duplicate-free lists in insertion order. -/
structure SymbolNode where
  id : String
  filePath : String
  symbolName : String
  dependencies : List String
  dependents : List String
deriving DecidableEq

/-- The graph (types.ts `SymbolGraph`): a `Map` from node id to node, modelled
as an association list in insertion order. -/
abbrev SymbolGraph := List (String × SymbolNode)

/-- JavaScript `Set.add` on a string set kept as an insertion-ordered list. -/
def setAdd (l : List String) (x : String) : List String :=
  if l.contains x then l else l ++ [x]

/-- In-place mutation of the node stored under a key (JavaScript mutates the
node object; the key set is unchanged). -/
def updateNode (g : SymbolGraph) (id : String) (f : SymbolNode → SymbolNode) : SymbolGraph :=
  g.map fun p => if p.1 = id then (p.1, f p.2) else p

/-- The paired mutation `from.dependencies.add(toId); to.dependents.add(fromId)`
performed (in both the file-level and the symbol-level branch) by
linkDependencies: the only operation that ever creates an edge. -/
def addEdge (g : SymbolGraph) (fromId toId : String) : SymbolGraph :=
  updateNode
    (updateNode g fromId fun n => { n with dependencies := setAdd n.dependencies toId })
    toId fun n => { n with dependents := setAdd n.dependents fromId }

/-! ## The tracer (tracer.ts) -/

/-- The `mode` argument of `traceSymbolGraph`. -/
inductive TraceMode where
  | dependencies
  | dependents
  | both
deriving DecidableEq

/-- The starting node set of `traceSymbolGraph`: a single graph node when
`startId` contains `#` and is present, else every node whose `filePath` equals
`startId`, in graph iteration order. -/
def startNodesOf (graph : SymbolGraph) (startId : String) : List SymbolNode :=
  if strHasChar startId '#' then
    match graph.lookup startId with
    | some n => [n]
    | none => []
  else
    (graph.map Prod.snd).filter fun n => n.filePath = startId

/-- The neighbor ids gathered at a dequeued node: a fresh `Set` receiving the
node's `dependencies` and/or `dependents` according to the mode. -/
def nextNodeIdsOf (mode : TraceMode) (n : SymbolNode) : List String :=
  let base :=
    (if mode = TraceMode.dependencies ∨ mode = TraceMode.both then n.dependencies else []) ++
    (if mode = TraceMode.dependents ∨ mode = TraceMode.both then n.dependents else [])
  base.foldl setAdd []

/-- The BFS loop of `traceSymbolGraph` over the explicit queue. The `fuel`
argument only bounds the number of loop iterations so that the definition is
structurally recursive; every guarded enqueue grows the visited set by a node
of the graph, so `graph.length + initial queue length + 1` iterations always
suffice and the wrapper below supplies exactly that. -/
def traceBFS (graph : SymbolGraph) (mode : TraceMode) (maxHops : Nat) :
    Nat → List (SymbolNode × Nat) → List String → List String → List String
  | 0, _, _, result => result
  | _ + 1, [], _, result => result
  | fuel + 1, (currentNode, hops) :: rest, visited, result =>
    if hops ≥ maxHops then
      traceBFS graph mode maxHops fuel rest visited result
    else
      let step := (nextNodeIdsOf mode currentNode).foldl
        (fun (acc : List String × List String × List (SymbolNode × Nat)) nextId =>
          if !acc.1.contains nextId then
            match graph.lookup nextId with
            | some nextNode =>
              (acc.1 ++ [nextId], setAdd acc.2.1 nextNode.filePath,
                acc.2.2 ++ [(nextNode, hops + 1)])
            | none => acc
          else acc)
        (visited, result, [])
      traceBFS graph mode maxHops fuel (rest ++ step.2.2) step.1 step.2.1

/-- `traceSymbolGraph(graph, startId, mode, maxHops)` from tracer.ts: seed the
queue with the starting nodes at hop distance 0, run the hop-bounded BFS, and
return the de-duplicated file paths of every visited node. -/
def traceSymbolGraph (graph : SymbolGraph) (startId : String) (mode : TraceMode)
    (maxHops : Nat) : List String :=
  let startNodes := startNodesOf graph startId
  if startNodes.isEmpty then []
  else
    traceBFS graph mode maxHops (graph.length + startNodes.length + 1)
      (startNodes.map fun n => (n, 0))
      ((startNodes.map SymbolNode.id).foldl setAdd [])
      ((startNodes.map SymbolNode.filePath).foldl setAdd [])

/-! ## The abstract AST model

Babel ASTs are abstracted to exactly the statement shapes that the three graph
passes and `resolveExport` pattern-match on, in document order. -/

/-- An import specifier of an `ImportDeclaration`. For the named and default
forms, `binding` models `path.scope.getBinding(specifier.local.name)`: `none`
when no binding is found, otherwise one entry per `referencePath`, holding the
name of the nearest enclosing named function/class declaration or
variable declarator with an `Identifier` id (or `none` when the reference has
no such recognizable enclosing symbol). -/
inductive ImportSpec where
  | importSpecifier (importedName : String) (binding : Option (List (Option String)))
  | importDefaultSpecifier (binding : Option (List (Option String)))
  | importNamespaceSpecifier
deriving DecidableEq

/-- One statement of a parsed file, restricted to the shapes the passes
inspect. `declaration` covers named function/class/enum/interface/type-alias
declarations (visited at any depth); `variableDeclaration` carries whether its
parent is the module body or a named-export wrapper (the condition
discoverSymbols checks) together with its `Identifier`-named declarators;
`exportNamedFrom` is an `ExportNamedDeclaration` with a `source` and its
`(local, exported)` specifier pairs; `exportAllFrom` is an
`ExportAllDeclaration`. -/
inductive AstNode where
  | importDeclaration (source : String) (specifiers : List ImportSpec)
  | exportNamedFrom (source : String) (specifiers : List (String × String))
  | exportAllFrom (source : String)
  | declaration (name : String)
  | variableDeclaration (topLevel : Bool) (names : List String)
  | exportDefaultDeclaration
deriving DecidableEq

/-- The AST of one file: its statements in document order. -/
abbrev Ast := List AstNode

/-- The AST cache built by pass 1: file path to AST, in `Map` insertion order;
only paths matching `/\.(ts|tsx|js|jsx)$/` are ever inserted. -/
abbrev AstCache := List (String × Ast)

/-! ## Pass 2: discoverSymbols (2_discoverSymbols.ts) -/

/-- The `createNode` helper of discoverSymbols: insert a fresh symbol node under
`filePath#name` unless that id is already present. -/
def createNode (g : SymbolGraph) (filePath name : String) : SymbolGraph :=
  let id := filePath ++ "#" ++ name
  if (g.lookup id).isSome then g
  else g ++ [(id, ⟨id, filePath, name, [], []⟩)]

/-- Processing of a single cache entry by discoverSymbols: ensure the file-level
node exists, then create one node per visited declaration, per top-level
`Identifier` variable declarator, and for a default export. -/
def discoverFile (g : SymbolGraph) (filePath : String) (ast : Ast) : SymbolGraph :=
  let g0 :=
    if (g.lookup filePath).isSome then g
    else g ++ [(filePath, ⟨filePath, filePath, "(file)", [], []⟩)]
  ast.foldl
    (fun g node =>
      match node with
      | AstNode.declaration name => createNode g filePath name
      | AstNode.variableDeclaration true names =>
        names.foldl (fun g n => createNode g filePath n) g
      | AstNode.exportDefaultDeclaration => createNode g filePath "default"
      | _ => g)
    g0

/-- Pass 2, `discoverSymbols(astCache, graph, errors)`: populate the graph nodes
for every cached file. (The per-file `try/catch` is vacuous here because the
abstract traversal cannot throw, so the `errors` parameter is not modelled.) -/
def discoverSymbols (astCache : AstCache) (g : SymbolGraph) : SymbolGraph :=
  astCache.foldl (fun g p => discoverFile g p.1 p.2) g

example :
    discoverSymbols [("a.ts", [AstNode.declaration "f", AstNode.exportDefaultDeclaration])] [] =
      [("a.ts", ⟨"a.ts", "a.ts", "(file)", [], []⟩),
       ("a.ts#f", ⟨"a.ts#f", "a.ts", "f", [], []⟩),
       ("a.ts#default", ⟨"a.ts#default", "a.ts", "default", [], []⟩)] := by
  decide

/-! ## resolveExport (astUtils.ts) -/

/-- The accumulator of the re-export traversal inside `resolveExport`:
`foundOrigin`, the `path.stop()` flag, and the threaded mutable state (resolver
cache/diagnostics and the shared `visited` set). -/
structure ReexportAcc where
  foundOrigin : Option String
  stopped : Bool
  rstate : ResolverState
  visited : List String

/-- The second traversal of `resolveExport`: is `symbolName` declared locally in
this file (named declaration at any depth, `Identifier` variable declarator at
any depth, or a default export when the requested name is `default`)? -/
def declaredLocally (ast : Ast) (symbolName : String) : Bool :=
  ast.any fun node =>
    match node with
    | AstNode.declaration name => name = symbolName
    | AstNode.variableDeclaration _ names => names.contains symbolName
    | AstNode.exportDefaultDeclaration => symbolName = "default"
    | _ => false

/-- `resolveExport(targetPath, symbolName, astCache, pathResolver, errors,
visited)` from astUtils.ts: recursively trace an export to its original
declaration across files. The shared `visited` set (keyed by
`targetPath#symbolName`) blocks circular re-export chains; the result is the
originating symbol id or `null`. The extra `fuel` argument only makes the
recursion structural; it is consumed one unit per recursion step after the
visited-set check, so any fuel exceeding the number of distinct visitable keys
(`linkFuel` below) makes the embedding agree with the source. -/
def resolveExport (r : PathResolver) (astCache : AstCache) :
    Nat → String → String → ResolverState → List String →
      Option String × ResolverState × List String
  | fuel, targetPath, symbolName, s, visited =>
    let cacheKey := targetPath ++ "#" ++ symbolName
    if visited.contains cacheKey then (none, s, visited)
    else
      let visited1 := visited ++ [cacheKey]
      match astCache.lookup targetPath with
      | none => (none, s, visited1)
      | some ast =>
        match fuel with
        | 0 => (none, s, visited1)
        | fuel + 1 =>
          let t : ReexportAcc := ast.foldl
            (fun acc node =>
              if acc.stopped then acc
              else
                match node with
                | AstNode.exportNamedFrom source specifiers =>
                  let res := r.resolve acc.rstate targetPath source
                  match res.1 with
                  | some sourcePath =>
                    specifiers.foldl
                      (fun acc2 spec =>
                        if spec.2 = symbolName then
                          let rr := resolveExport r astCache fuel sourcePath spec.1
                            acc2.rstate acc2.visited
                          ⟨rr.1, true, rr.2.1, rr.2.2⟩
                        else acc2)
                      { acc with rstate := res.2 }
                  | none => { acc with rstate := res.2 }
                | AstNode.exportAllFrom source =>
                  let res := r.resolve acc.rstate targetPath source
                  match res.1 with
                  | some sourcePath =>
                    let rr := resolveExport r astCache fuel sourcePath symbolName
                      res.2 acc.visited
                    match rr.1 with
                    | some origin =>
                      { acc with foundOrigin := some origin, rstate := rr.2.1, visited := rr.2.2 }
                    | none => { acc with rstate := rr.2.1, visited := rr.2.2 }
                  | none => { acc with rstate := res.2 }
                | _ => acc)
            ⟨none, false, s, visited1⟩
          match t.foundOrigin with
          | some foundOrigin => (some foundOrigin, t.rstate, t.visited)
          | none =>
            if declaredLocally ast symbolName then (some cacheKey, t.rstate, t.visited)
            else (none, t.rstate, t.visited)

/-! ## Pass 3: linkDependencies (3_linkDependencies.ts) -/

/-- The imported name of a specifier: the imported identifier for a named
import, the literal `default` for a default import, and nothing for a namespace
import; paired with the modelled `scope.getBinding` result. -/
def importedNameOf : ImportSpec → Option (String × Option (List (Option String)))
  | ImportSpec.importSpecifier importedName binding => some (importedName, binding)
  | ImportSpec.importDefaultSpecifier binding => some ("default", binding)
  | ImportSpec.importNamespaceSpecifier => none

/-- A step of pass 3 that can throw: the error value carries the graph and
resolver state at the moment of the throw, because the JavaScript mutations made
before an exception persist. -/
abbrev LinkM := Except (String × SymbolGraph × ResolverState) (SymbolGraph × ResolverState)

/-- Processing of one import specifier by linkDependencies: resolve the export
origin; when it exists in the graph, add the unconditional file-level edge (a
missing importer file node makes the JavaScript dereference throw before any
mutation) and then the best-effort symbol-level edges derived from the binding's
reference paths. -/
def linkSpecifier (r : PathResolver) (astCache : AstCache) (fuel : Nat)
    (filePath sourcePath : String) (gs : SymbolGraph × ResolverState) (spec : ImportSpec) :
    LinkM :=
  match importedNameOf spec with
  | none => Except.ok gs
  | some (importedName, binding) =>
    let re := resolveExport r astCache fuel sourcePath importedName gs.2 []
    let s := re.2.1
    match re.1 with
    | some exporterId =>
      if (gs.1.lookup exporterId).isSome then
        match gs.1.lookup filePath with
        | none => Except.error ("TypeError: Cannot read properties of undefined", gs.1, s)
        | some _ =>
          let g1 := addEdge gs.1 filePath exporterId
          let g2 :=
            match binding with
            | none => g1
            | some refs =>
              refs.foldl
                (fun g ref =>
                  match ref with
                  | some enclosingName =>
                    let importerId := filePath ++ "#" ++ enclosingName
                    if (g.lookup importerId).isSome then addEdge g importerId exporterId else g
                  | none => g)
                g1
          Except.ok (g2, s)
      else Except.ok (gs.1, s)
    | none => Except.ok (gs.1, s)

/-- Processing of one `ImportDeclaration`: resolve the module specifier (a
`null` resolution skips the whole declaration) and then link each specifier. -/
def linkImportDecl (r : PathResolver) (astCache : AstCache) (fuel : Nat) (filePath : String)
    (gs : SymbolGraph × ResolverState) (source : String) (specifiers : List ImportSpec) :
    LinkM :=
  let res := r.resolve gs.2 filePath source
  match res.1 with
  | none => Except.ok (gs.1, res.2)
  | some sourcePath =>
    specifiers.foldlM (linkSpecifier r astCache fuel filePath sourcePath) (gs.1, res.2)

/-- Processing of one cached file by linkDependencies, with the per-file
`try/catch`: an exception thrown mid-file keeps the mutations already made and
appends a `[Dependency Linking Failed]` diagnostic. -/
def linkFile (r : PathResolver) (astCache : AstCache) (fuel : Nat)
    (gs : SymbolGraph × ResolverState) (filePath : String) (ast : Ast) :
    SymbolGraph × ResolverState :=
  let result := ast.foldlM
    (fun gs node =>
      match node with
      | AstNode.importDeclaration source specifiers =>
        linkImportDecl r astCache fuel filePath gs source specifiers
      | _ => (Except.ok gs : LinkM))
    gs
  match result with
  | Except.ok gs2 => gs2
  | Except.error (msg, g, s) =>
    (g, { s with errors := s.errors ++ ["[Dependency Linking Failed] " ++ filePath ++ ": " ++ msg] })

/-- Pass 3, `linkDependencies(astCache, graph, pathResolver, errors)`. -/
def linkDependencies (r : PathResolver) (astCache : AstCache) (fuel : Nat)
    (g : SymbolGraph) (s : ResolverState) : SymbolGraph × ResolverState :=
  astCache.foldl (fun gs p => linkFile r astCache fuel gs p.1 p.2) (g, s)

/-- An upper bound on the number of distinct `targetPath#symbolName` keys any
`resolveExport` recursion can insert into its visited set: every recursion step
first inserts a fresh key whose path is a cache key and whose name is either
the initial name or the local name of some re-export specifier, so depth never
exceeds this. Supplying it as fuel makes the fuel check unreachable. -/
def linkFuel (cache : AstCache) : Nat :=
  let specNames := cache.foldl
    (fun acc p =>
      acc + p.2.foldl
        (fun acc2 node =>
          match node with
          | AstNode.exportNamedFrom _ specs => acc2 + specs.length
          | _ => acc2)
        0)
    0
  cache.length * (specNames + 1) + 1

/-- The build entry point `buildSymbolGraph(fileIndex, aliasMap, errors)` from
packages/core/src/logic/symbolGraph/index.ts: create a fresh graph and a
`PathResolver` over the file-index keys, then run the passes of `runASTParser`
in sequence. Pass 1 (parsing file text into ASTs) is not modelled; its output,
the AST cache, is taken as an input — its keys are the successfully parsed
subset of `fileIndexKeys`, every one matching `/\.(ts|tsx|js|jsx)$/`. -/
def buildSymbolGraph (fileIndexKeys : List String) (astCache : AstCache)
    (aliasMap : List (String × String)) : SymbolGraph × List String :=
  let r : PathResolver := ⟨fileIndexKeys, aliasMap⟩
  let g := discoverSymbols astCache []
  let gs := linkDependencies r astCache (linkFuel astCache) g ⟨[], []⟩
  (gs.1, gs.2.errors)

example :
    (resolveExport ⟨["origin.ts", "mid.ts"], []⟩
      [("origin.ts", [AstNode.declaration "Foo"]),
       ("mid.ts", [AstNode.exportNamedFrom "./origin" [("Foo", "Foo")]])]
      5 "mid.ts" "Foo" ⟨[], []⟩ []).1 = some "origin.ts#Foo" := by
  decide

/-! ## Concrete fixtures used by the claims -/

/-- The probing order the specification asserts for a candidate path: first the
bare path, then each plain extension, then the `/index` variants. Modelled from
the spec's words, for comparison with the source's `probeAttempts`. -/
def claimedAttempts (resolvedPath : String) : List String :=
  [resolvedPath, resolvedPath ++ ".ts", resolvedPath ++ ".tsx",
   resolvedPath ++ ".js", resolvedPath ++ ".jsx",
   resolvedPath ++ "/index", resolvedPath ++ "/index.ts", resolvedPath ++ "/index.tsx",
   resolvedPath ++ "/index.js", resolvedPath ++ "/index.jsx"]

/-- A linear dependency chain f1 → f2 → f3 → f4: each file declares one symbol,
imports the next file's symbol, and references the import inside its own
declaration (so both file-level and symbol-level edges arise). -/
def chainCache : AstCache :=
  [("f1.ts", [AstNode.declaration "g1",
              AstNode.importDeclaration "./f2" [ImportSpec.importSpecifier "g2" (some [some "g1"])]]),
   ("f2.ts", [AstNode.declaration "g2",
              AstNode.importDeclaration "./f3" [ImportSpec.importSpecifier "g3" (some [some "g2"])]]),
   ("f3.ts", [AstNode.declaration "g3",
              AstNode.importDeclaration "./f4" [ImportSpec.importSpecifier "g4" (some [some "g3"])]]),
   ("f4.ts", [AstNode.declaration "g4"])]

/-- The graph the build entry point produces for the linear chain. -/
def chainGraph : SymbolGraph :=
  (buildSymbolGraph ["f1.ts", "f2.ts", "f3.ts", "f4.ts"] chainCache []).1

/-- Two aliased packages, with `x.ts` in package `@a` importing `y.ts` of
package `@b` through a relative path. -/
def crossAliasMap : List (String × String) := [("@a", "packages/a/src"), ("@b", "packages/b/src")]

/-- The file set of the cross-package fixture. -/
def crossFiles : List String := ["packages/a/src/x.ts", "packages/b/src/y.ts"]

/-- The `PathResolver` instance of the cross-package fixture. -/
def crossResolver : PathResolver := ⟨crossFiles, crossAliasMap⟩

/-- The AST cache of the cross-package fixture. -/
def crossCache : AstCache :=
  [("packages/a/src/x.ts",
     [AstNode.importDeclaration "../../b/src/y" [ImportSpec.importSpecifier "y" (some [])]]),
   ("packages/b/src/y.ts", [AstNode.declaration "y"])]

/-- A named re-export chain: `origin.ts` declares `Foo`, `mid.ts` re-exports it,
`consumer.ts` imports it from `mid.ts`. -/
def reexportCache : AstCache :=
  [("origin.ts", [AstNode.declaration "Foo"]),
   ("mid.ts", [AstNode.exportNamedFrom "./origin" [("Foo", "Foo")]]),
   ("consumer.ts", [AstNode.importDeclaration "./mid" [ImportSpec.importSpecifier "Foo" (some [])]])]

/-- A circular wildcard re-export: `a.ts` re-exports everything from `b.ts` and
vice versa; neither file declares anything. -/
def circularCache : AstCache :=
  [("a.ts", [AstNode.exportAllFrom "./b"]), ("b.ts", [AstNode.exportAllFrom "./a"])]

/-- The resolver over the circular fixture's two files, with no aliases. -/
def circResolver : PathResolver := ⟨["a.ts", "b.ts"], []⟩

/-! ## Claims about the path resolver's probing (C1, C10) -/

/-- C1, counterexample: with both `b` and `b.ts` in the known file set, the
claimed probe order (bare path first) would return `b`, but
`PathResolver.resolve` returns `b.ts`, because the code actually probes
`path + ".ts"` before the bare path. -/
theorem c1_probe_order_counterexample :
    (PathResolver.resolve ⟨["b", "b.ts"], []⟩ ⟨[], []⟩ "a.ts" "./b").1 = some "b.ts" ∧
    (claimedAttempts "b").find? (fun a => (["b", "b.ts"] : List String).contains a) = some "b" ∧
    (some "b.ts" : Option String) ≠ some "b" := by
  refine ⟨by decide, by decide, by decide⟩

/-- C1, amended: for every candidate resolved path, the probing step of
`PathResolver.resolve` (reached on every alias substitution and every accepted
relative resolution) tries, in order: path + `.ts`; path + `/index.ts`;
path + `.tsx`; path + `/index.tsx`; path + `.js`; path + `/index.js`;
path + `.jsx`; path + `/index.jsx`; the bare path; path + `/index` — and
returns the first candidate present in the known file set, else null. -/
theorem c1_probe_order_list (r : PathResolver) (s : ResolverState) (cacheKey p : String) :
    (finishResolve r s cacheKey p).1 =
      ([p ++ ".ts", p ++ "/index.ts", p ++ ".tsx", p ++ "/index.tsx",
        p ++ ".js", p ++ "/index.js", p ++ ".jsx", p ++ "/index.jsx",
        p, p ++ "/index"]).find? (fun a => r.filePaths.contains a) := by
  have hp : p ++ "" = p := by cases p; simp [String.instAppend, String.append]
  have hassoc : ∀ a b c : String, a ++ b ++ c = a ++ (b ++ c) := String.append_assoc
  have h1 : ("/index" : String) ++ ".ts" = "/index.ts" := by decide
  have h2 : ("/index" : String) ++ ".tsx" = "/index.tsx" := by decide
  have h3 : ("/index" : String) ++ ".js" = "/index.js" := by decide
  have h4 : ("/index" : String) ++ ".jsx" = "/index.jsx" := by decide
  have hattempts : probeAttempts p =
      [p ++ ".ts", p ++ "/index.ts", p ++ ".tsx", p ++ "/index.tsx",
       p ++ ".js", p ++ "/index.js", p ++ ".jsx", p ++ "/index.jsx",
       p, p ++ "/index"] := by
    simp [probeAttempts, extensionsList, hp, hassoc, h1, h2, h3, h4]
  unfold finishResolve
  rw [hattempts]
  split
  · rename_i a heq
    exact heq.symm
  · rename_i heq
    exact heq.symm

/-- C1, amended: the probing step of `PathResolver.resolve` — which `resolve`
runs for every candidate obtained by alias substitution (second conjunct) and
for every accepted relative candidate — tries, in order: path + `.ts`;
path + `/index.ts`; path + `.tsx`; path + `/index.tsx`; path + `.js`;
path + `/index.js`; path + `.jsx`; path + `/index.jsx`; the bare path;
path + `/index`; and returns the first candidate present in the known file set,
else null. -/
theorem c1_probe_order_amended (r : PathResolver) (s : ResolverState) (cacheKey p : String) :
    ((finishResolve r s cacheKey p).1 =
      ([p ++ ".ts", p ++ "/index.ts", p ++ ".tsx", p ++ "/index.tsx",
        p ++ ".js", p ++ "/index.js", p ++ ".jsx", p ++ "/index.jsx",
        p, p ++ "/index"]).find? (fun a => r.filePaths.contains a)) ∧
    (∀ (f i : String) (a : String × String),
      s.cache.lookup (f ++ "|" ++ i) = none →
      r.aliasMap.find? (fun al => strStartsWith (stripSourceExt i) al.1) = some a →
      r.resolve s f i =
        finishResolve r s (f ++ "|" ++ i)
          (pathNormalize (pathJoin [a.2, strDrop (stripSourceExt i) a.1.length]))) := by
  refine ⟨c1_probe_order_list r s cacheKey p, ?_⟩
  intro f i a hcache halias
  unfold PathResolver.resolve
  dsimp only
  rw [hcache]
  rw [halias]

/-- C1 amended witness: an alias-substituted candidate is handed to the probing
step exactly as the second conjunct states. -/
theorem c1_probe_order_amended_witness :
    PathResolver.resolve ⟨["src/b.ts"], [("@x", "src")]⟩ ⟨[], []⟩ "a.ts" "@x/b" =
      finishResolve ⟨["src/b.ts"], [("@x", "src")]⟩ ⟨[], []⟩ ("a.ts" ++ "|" ++ "@x/b")
        (pathNormalize (pathJoin [("@x", "src").2,
          strDrop (stripSourceExt "@x/b") ("@x", "src").1.length])) :=
  (c1_probe_order_amended ⟨["src/b.ts"], [("@x", "src")]⟩ ⟨[], []⟩ "" "").2
    "a.ts" "@x/b" ("@x", "src") (by decide) (by decide)

/-- C10: a relative specifier with more `..` segments than the importing file's
directory depth is not an error: `path.normalize` silently discards the excess
`..` segments, so the candidate is anchored at the repository root. Resolving
`../../b` from the root-level file `a.ts` (whose directory is the empty string)
normalizes to `b` and probes the known file set, here finding `b.ts`, with no
diagnostic recorded. -/
theorem c10_excess_dotdot_resolves_from_root :
    pathNormalize (pathJoin [dirUpToLastSlash "a.ts", "../../b"]) = "b" ∧
    PathResolver.resolve ⟨["b.ts"], []⟩ ⟨[], []⟩ "a.ts" "../../b" =
      (some "b.ts", ⟨[("a.ts|../../b", some "b.ts")], []⟩) := by
  refine ⟨by decide, by decide⟩

/-! ## Claims about the tracer (C2) -/

/-- C2: on the graph built from the linear chain f1 → f2 → f3 → f4,
`trace(graph, "f1.ts", "dependencies", 1)` reaches exactly f1.ts and f2.ts;
`maxHops = 2` reaches exactly f1.ts, f2.ts and f3.ts; and `maxHops = 0` reaches
only f1.ts itself. A dequeued node whose hop distance equals `maxHops` is not
expanded (f3's neighbor f4 is absent at `maxHops = 2`) but remains in the
result, as the `maxHops = 0` case shows for the start node. -/
theorem c2_trace_hop_limit_boundary :
    traceSymbolGraph chainGraph "f1.ts" TraceMode.dependencies 1 = ["f1.ts", "f2.ts"] ∧
    traceSymbolGraph chainGraph "f1.ts" TraceMode.dependencies 2 = ["f1.ts", "f2.ts", "f3.ts"] ∧
    traceSymbolGraph chainGraph "f1.ts" TraceMode.dependencies 0 = ["f1.ts"] := by
  refine ⟨by decide, by decide, by decide⟩

/-! ## Claims about cross-package rejection (C4) and re-export resolution (C5) -/

/-- C4: the relative import `../../b/src/y` from `packages/a/src/x.ts` crosses
from package root `packages/a` into `packages/b`; `resolve` appends the
diagnostic naming the importing file and the import and returns null, and the
built graph gives `x.ts` no dependencies at all — in particular no edge to
`y.ts` or its symbol. -/
theorem c4_cross_package_rejection :
    (crossResolver.resolve ⟨[], []⟩ "packages/a/src/x.ts" "../../b/src/y").1 = none ∧
    (crossResolver.resolve ⟨[], []⟩ "packages/a/src/x.ts" "../../b/src/y").2.errors =
      ["[Invalid Import] File 'packages/a/src/x.ts' cannot use a relative path to import " ++
        "from another package: '../../b/src/y'. Use an alias instead."] ∧
    (buildSymbolGraph crossFiles crossCache crossAliasMap).2 =
      ["[Invalid Import] File 'packages/a/src/x.ts' cannot use a relative path to import " ++
        "from another package: '../../b/src/y'. Use an alias instead."] ∧
    ((buildSymbolGraph crossFiles crossCache crossAliasMap).1.lookup "packages/a/src/x.ts").map
        SymbolNode.dependencies = some [] ∧
    ∀ p ∈ (buildSymbolGraph crossFiles crossCache crossAliasMap).1, p.2.dependencies = [] := by
  refine ⟨by decide, by decide, by decide, by decide, by decide⟩

/-- C5: with `origin.ts` declaring `Foo`, `mid.ts` re-exporting it and
`consumer.ts` importing it from `mid.ts`, the built graph has the edge from
`consumer.ts`'s file node to `origin.ts#Foo` (recorded symmetrically), contains
no node `mid.ts#Foo`, and no node at all depends on `mid.ts#Foo`. -/
theorem c5_reexport_chain_resolution :
    ((buildSymbolGraph ["origin.ts", "mid.ts", "consumer.ts"] reexportCache []).1.lookup
        "consumer.ts").map SymbolNode.dependencies = some ["origin.ts#Foo"] ∧
    ((buildSymbolGraph ["origin.ts", "mid.ts", "consumer.ts"] reexportCache []).1.lookup
        "origin.ts#Foo").map SymbolNode.dependents = some ["consumer.ts"] ∧
    (buildSymbolGraph ["origin.ts", "mid.ts", "consumer.ts"] reexportCache []).1.lookup
        "mid.ts#Foo" = none ∧
    ∀ p ∈ (buildSymbolGraph ["origin.ts", "mid.ts", "consumer.ts"] reexportCache []).1,
      "mid.ts#Foo" ∉ p.2.dependencies := by
  refine ⟨by decide, by decide, by decide, by decide⟩

/-! ## Claims about resolution memoization (C7, C9) -/

/-- The probing step stores the value it returns under the supplied cache
key. -/
theorem finishResolve_caches (r : PathResolver) (s : ResolverState) (cacheKey p : String) :
    ((finishResolve r s cacheKey p).2).cache.lookup cacheKey =
      some (finishResolve r s cacheKey p).1 := by
  unfold finishResolve
  cases h : (probeAttempts p).find? (fun attempt => r.filePaths.contains attempt) <;> simp [h]

/-- Every exit path of a cache-missing `resolve` call stores the returned value
under the call's cache key, so the state returned by any `resolve` call maps the
key to the returned value. -/
theorem resolve_caches_result (r : PathResolver) (s : ResolverState) (f i : String) :
    ((r.resolve s f i).2).cache.lookup (f ++ "|" ++ i) = some (r.resolve s f i).1 := by
  unfold PathResolver.resolve
  cases hv : s.cache.lookup (f ++ "|" ++ i) with
  | some v => simp [hv]
  | none =>
    simp only [hv]
    cases ha : r.aliasMap.find? (fun a => strStartsWith (stripSourceExt i) a.1) with
    | some a =>
      simp only [ha]
      exact finishResolve_caches r s _ _
    | none =>
      simp only [ha]
      by_cases hrel : strStartsWith (stripSourceExt i) "." = true
      · simp only [hrel, if_true]
        cases hfp : getPackageRoot r.packageRoots f with
        | some fromPackage =>
          cases htp : getPackageRoot r.packageRoots
              (pathNormalize (pathJoin [dirUpToLastSlash f, stripSourceExt i])) with
          | some toPackage =>
            simp only [hfp, htp]
            by_cases hx : fromPackage ≠ "" ∧ toPackage ≠ "" ∧ fromPackage ≠ toPackage
            · rw [if_pos hx]
              simp
            · rw [if_neg hx]
              exact finishResolve_caches r s _ _
          | none =>
            simp only [hfp, htp]
            exact finishResolve_caches r s _ _
        | none =>
          simp only [hfp]
          exact finishResolve_caches r s _ _
      · simp [hrel]

/-- A `resolve` call whose cache key is present returns the cached value with
the state — diagnostics included — completely unchanged. -/
theorem resolve_cache_hit (r : PathResolver) (s : ResolverState) (f i : String)
    (v : Option String) (h : s.cache.lookup (f ++ "|" ++ i) = some v) :
    r.resolve s f i = (v, s) := by
  unfold PathResolver.resolve
  simp [h]

/-- C7: `resolve` is deterministic across memoization — calling it a second time
with identical arguments, on the state produced by the first call, returns the
identical result. When the first call was a cache miss it computed the result
and cached it, so this equation is exactly the agreement of the non-memoized
and memoized paths. -/
theorem c7_resolve_deterministic (r : PathResolver) (s : ResolverState) (f i : String) :
    (r.resolve ((r.resolve s f i).2) f i).1 = (r.resolve s f i).1 := by
  rw [resolve_cache_hit r ((r.resolve s f i).2) f i (r.resolve s f i).1
    (resolve_caches_result r s f i)]

/-- Iterated `resolve` calls with fixed arguments: `resolveN n` is the state
after `n` calls. -/
def resolveN (r : PathResolver) (f i : String) : Nat → ResolverState → ResolverState
  | 0, s => s
  | n + 1, s => (r.resolve (resolveN r f i n s) f i).2

/-- After the first call the state is a fixed point of further identical
calls. -/
theorem resolveN_stable (r : PathResolver) (f i : String) (s : ResolverState) :
    ∀ n : Nat, resolveN r f i (n + 1) s = resolveN r f i 1 s := by
  intro n
  induction n with
  | zero => rfl
  | succ n ih =>
    show (r.resolve (resolveN r f i (n + 1) s) f i).2 = resolveN r f i 1 s
    rw [ih]
    show (r.resolve ((r.resolve s f i).2) f i).2 = (r.resolve s f i).2
    rw [resolve_cache_hit r ((r.resolve s f i).2) f i (r.resolve s f i).1
      (resolve_caches_result r s f i)]

/-- C9: the cross-package diagnostic is appended at most once per
`(fromPath, importPath)` pair. Generally, a repeated `resolve` call is answered
from the memoization cache and returns the first call's result with the state —
in particular the diagnostics array — unchanged; concretely, for the illegal
cross-package import of the fixture, after any positive number of identical
calls the diagnostics array holds exactly the one diagnostic and every call has
returned null. -/
theorem c9_cross_package_diag_once :
    (∀ (r : PathResolver) (s : ResolverState) (f i : String),
      r.resolve ((r.resolve s f i).2) f i = ((r.resolve s f i).1, (r.resolve s f i).2)) ∧
    ∀ n : Nat,
      (resolveN crossResolver "packages/a/src/x.ts" "../../b/src/y" (n + 1) ⟨[], []⟩).errors =
        [crossPackageDiag "packages/a/src/x.ts" "../../b/src/y"] ∧
      (crossResolver.resolve (resolveN crossResolver "packages/a/src/x.ts" "../../b/src/y" n ⟨[], []⟩)
        "packages/a/src/x.ts" "../../b/src/y").1 = none := by
  constructor
  · intro r s f i
    exact resolve_cache_hit r ((r.resolve s f i).2) f i (r.resolve s f i).1
      (resolve_caches_result r s f i)
  · intro n
    constructor
    · rw [resolveN_stable]
      decide
    · match n with
      | 0 => decide
      | n + 1 =>
        rw [resolveN_stable]
        have h1 : (resolveN crossResolver "packages/a/src/x.ts" "../../b/src/y" 1
            ⟨[], []⟩).cache.lookup ("packages/a/src/x.ts" ++ "|" ++ "../../b/src/y") =
            some none := by decide
        rw [resolve_cache_hit _ _ _ _ none h1]

/-! ## Claims about circular re-exports (C6) -/

/-- A `resolveExport` call whose cache key is already in the visited set returns
immediately — before even inspecting the fuel — leaving all state unchanged:
the mechanism that blocks circular re-export recursion. -/
theorem resolveExport_visited (r : PathResolver) (cache : AstCache) (fuel : Nat)
    (t n : String) (s : ResolverState) (visited : List String)
    (h : visited.contains (t ++ "#" ++ n) = true) :
    resolveExport r cache fuel t n s visited = (none, s, visited) := by
  rw [resolveExport.eq_def]
  dsimp only
  rw [if_pos h]

/-- The resolver state after resolving `./b` from `a.ts` in the circular
fixture. -/
def circState1 : ResolverState := ⟨[("a.ts|./b", some "b.ts")], []⟩

/-- The resolver state after additionally resolving `./a` from `b.ts`. -/
def circState2 : ResolverState :=
  ⟨[("b.ts|./a", some "a.ts"), ("a.ts|./b", some "b.ts")], []⟩

/-- Evaluation of the inner `resolveExport` call of the circular fixture, for
every fuel value: the recursion into `a.ts` is blocked by the visited set. -/
theorem circ_resolveExport_inner (fuel : Nat) :
    resolveExport circResolver circularCache (fuel + 1) "b.ts" "X" circState1 ["a.ts#X"] =
      (none, circState2, ["a.ts#X", "b.ts#X"]) := by
  rw [resolveExport.eq_def]
  dsimp only
  rw [if_neg (by decide)]
  rw [(by decide : circularCache.lookup "b.ts" = some [AstNode.exportAllFrom "./a"])]
  dsimp only
  have hk : ("b.ts" ++ "#" ++ "X" : String) = "b.ts#X" := by decide
  have e2 : circResolver.resolve circState1 "b.ts" "./a" = (some "a.ts", circState2) := by decide
  simp only [hk, List.cons_append, List.nil_append, List.foldl_cons, List.foldl_nil]
  simp only [reduceIte, e2]
  rw [resolveExport_visited circResolver circularCache fuel "a.ts" "X" circState2
    ["a.ts#X", "b.ts#X"] (by decide)]
  decide

/-- C6: circular re-export safety. For the fixture where `a.ts` and `b.ts`
wildcard-re-export each other, (1) `resolveExport` for a name neither file
declares returns `null` with a result independent of the fuel bound — the
visited set keyed by `filePath#symbolName` cuts the recursion off after one
round trip, which is the embedded counterpart of termination of the source's
unbounded recursion — and (2) the graph the build entry point produces consists
of exactly the two file-level nodes: no symbol node for any undeclared name. -/
theorem c6_circular_reexport_safety :
    (∀ fuel : Nat,
      resolveExport circResolver circularCache (fuel + 2) "a.ts" "X" ⟨[], []⟩ [] =
        (none, circState2, ["a.ts#X", "b.ts#X"])) ∧
    (buildSymbolGraph ["a.ts", "b.ts"] circularCache []).1.map Prod.fst = ["a.ts", "b.ts"] := by
  constructor
  · intro fuel
    rw [resolveExport.eq_def]
    dsimp only
    rw [if_neg (by decide)]
    rw [(by decide : circularCache.lookup "a.ts" = some [AstNode.exportAllFrom "./b"])]
    dsimp only
    have hk : ("a.ts" ++ "#" ++ "X" : String) = "a.ts#X" := by decide
    have e2 : PathResolver.resolve circResolver ⟨[], []⟩ "a.ts" "./b" =
      (some "b.ts", circState1) := by decide
    simp only [hk, List.cons_append, List.nil_append, List.foldl_cons, List.foldl_nil]
    simp only [reduceIte, e2]
    rw [circ_resolveExport_inner fuel]
    decide
  · decide

/-! ## The symmetric-edge invariant (C3) -/

/-- Membership after a `Set.add`. -/
theorem mem_setAdd {l : List String} {x y : String} :
    y ∈ setAdd l x ↔ y ∈ l ∨ y = x := by
  unfold setAdd
  by_cases h : l.contains x
  · rw [if_pos h]
    have hx : x ∈ l := by simpa using h
    constructor
    · exact Or.inl
    · rintro (h' | rfl)
      · exact h'
      · exact hx
  · rw [if_neg h]
    simp

/-- The effect of `addEdge g x y` on a single graph entry: the node keyed `x`
gains `y` among its dependencies and the node keyed `y` gains `x` among its
dependents; every other entry is untouched. -/
def adjustNode (x y : String) (p : String × SymbolNode) : String × SymbolNode :=
  (p.1, { p.2 with
    dependencies := if p.1 = x then setAdd p.2.dependencies y else p.2.dependencies,
    dependents := if p.1 = y then setAdd p.2.dependents x else p.2.dependents })

/-- `addEdge` is the entrywise application of `adjustNode`. -/
theorem addEdge_eq_map (g : SymbolGraph) (x y : String) :
    addEdge g x y = g.map (adjustNode x y) := by
  unfold addEdge updateNode
  rw [List.map_map]
  congr 1
  funext p
  by_cases hx : p.1 = x <;> by_cases hy : p.1 = y <;>
    simp [adjustNode, Function.comp, hx, hy] <;>
    split <;> rename_i hxy <;> simp [hxy, hx, hy]

/-- Every node's `id` field equals its graph key. -/
def NodeIdsMatchKeys (g : SymbolGraph) : Prop :=
  ∀ p ∈ g, p.2.id = p.1

/-- The symmetric-edge invariant: for all nodes A and B of the graph, B's id is
among A's dependencies exactly when A's id is among B's dependents. -/
def SymEdges (g : SymbolGraph) : Prop :=
  ∀ a ∈ g, ∀ b ∈ g, (b.2.id ∈ a.2.dependencies ↔ a.2.id ∈ b.2.dependents)

/-- The well-formedness the edge-creation step maintains. -/
def EdgeInv (g : SymbolGraph) : Prop :=
  NodeIdsMatchKeys g ∧ SymEdges g

/-- The paired mutation `addEdge` — the only edge-creating operation — preserves
the symmetric-edge invariant. -/
theorem addEdge_edgeInv (g : SymbolGraph) (x y : String) (h : EdgeInv g) :
    EdgeInv (addEdge g x y) := by
  obtain ⟨hid, hsym⟩ := h
  rw [addEdge_eq_map]
  constructor
  · intro p hp
    obtain ⟨q, hq, rfl⟩ := List.mem_map.1 hp
    have hq' := hid q hq
    simp [adjustNode, hq']
  · intro a ha b hb
    obtain ⟨a0, ha0, rfl⟩ := List.mem_map.1 ha
    obtain ⟨b0, hb0, rfl⟩ := List.mem_map.1 hb
    have hida := hid a0 ha0
    have hidb := hid b0 hb0
    have hs := hsym a0 ha0 b0 hb0
    rw [hida, hidb] at hs
    dsimp only [adjustNode]
    rw [hida, hidb]
    by_cases hax : a0.1 = x
    · rw [if_pos hax]
      by_cases hby : b0.1 = y
      · rw [if_pos hby]
        simp only [mem_setAdd]
        simp [hax, hby]
      · rw [if_neg hby]
        simp only [mem_setAdd]
        simp [hby]
        exact hs
    · rw [if_neg hax]
      by_cases hby : b0.1 = y
      · rw [if_pos hby]
        simp only [mem_setAdd]
        simp [hax]
        exact hs
      · rw [if_neg hby]
        exact hs

/-- Preservation of a predicate along a left fold. -/
theorem foldl_preserves {α β : Type} {P : β → Prop} {f : β → α → β}
    (h : ∀ b a, P b → P (f b a)) : ∀ (l : List α) (b : β), P b → P (l.foldl f b) := by
  intro l
  induction l with
  | nil => intro b hb; exact hb
  | cons a l ih => intro b hb; exact ih _ (h b a hb)

/-- A linking step satisfies `Q` on the graph it carries, whether it returned
normally or threw. -/
def LinkMOk (Q : SymbolGraph → Prop) : LinkM → Prop
  | Except.ok gs => Q gs.1
  | Except.error e => Q e.2.1

/-- Any graph predicate closed under `addEdge` is preserved by the processing of
one import specifier. -/
theorem linkSpecifier_ok (Q : SymbolGraph → Prop)
    (hQ : ∀ g x y, Q g → Q (addEdge g x y))
    (r : PathResolver) (astCache : AstCache) (fuel : Nat) (filePath sourcePath : String)
    (gs : SymbolGraph × ResolverState) (spec : ImportSpec) (hg : Q gs.1) :
    LinkMOk Q (linkSpecifier r astCache fuel filePath sourcePath gs spec) := by
  unfold linkSpecifier
  cases hspec : importedNameOf spec with
  | none => exact hg
  | some nb =>
    dsimp only
    cases hre : (resolveExport r astCache fuel sourcePath nb.1 gs.2 []).1 with
    | none => exact hg
    | some exporterId =>
      dsimp only
      by_cases hhas : (gs.1.lookup exporterId).isSome = true
      · rw [if_pos hhas]
        cases hfp : gs.1.lookup filePath with
        | none => exact hg
        | some n0 =>
          dsimp only
          have h1 : Q (addEdge gs.1 filePath exporterId) := hQ _ _ _ hg
          cases nb.2 with
          | none => exact h1
          | some refs =>
            dsimp only
            refine foldl_preserves ?_ refs _ h1
            intro g ref hgQ
            cases ref with
            | none => exact hgQ
            | some enclosingName =>
              dsimp only
              by_cases hi : (g.lookup (filePath ++ "#" ++ enclosingName)).isSome = true
              · rw [if_pos hi]
                exact hQ _ _ _ hgQ
              · rw [if_neg hi]
                exact hgQ
      · rw [if_neg hhas]
        exact hg

/-- Preservation of `LinkMOk` along the `foldlM` over a declaration's import
specifiers. -/
theorem foldlM_linkOk {α : Type} (Q : SymbolGraph → Prop)
    (f : SymbolGraph × ResolverState → α → LinkM)
    (hf : ∀ gs a, Q gs.1 → LinkMOk Q (f gs a)) :
    ∀ (l : List α) (gs : SymbolGraph × ResolverState), Q gs.1 → LinkMOk Q (l.foldlM f gs) := by
  intro l
  induction l with
  | nil => intro gs h; exact h
  | cons a l ih =>
    intro gs h
    rw [List.foldlM_cons]
    have hfa := hf gs a h
    cases hcase : f gs a with
    | ok gs2 =>
      rw [hcase] at hfa
      exact ih gs2 hfa
    | error e =>
      rw [hcase] at hfa
      exact hfa

/-- Any graph predicate closed under `addEdge` is preserved by the processing of
one `ImportDeclaration`. -/
theorem linkImportDecl_ok (Q : SymbolGraph → Prop)
    (hQ : ∀ g x y, Q g → Q (addEdge g x y))
    (r : PathResolver) (astCache : AstCache) (fuel : Nat) (filePath : String)
    (gs : SymbolGraph × ResolverState) (source : String) (specifiers : List ImportSpec)
    (hg : Q gs.1) :
    LinkMOk Q (linkImportDecl r astCache fuel filePath gs source specifiers) := by
  unfold linkImportDecl
  dsimp only
  cases hres : (r.resolve gs.2 filePath source).1 with
  | none => exact hg
  | some sourcePath =>
    exact foldlM_linkOk Q _ (fun gs2 spec hg2 => linkSpecifier_ok Q hQ r astCache fuel
      filePath sourcePath gs2 spec hg2) specifiers _ hg

/-- Any graph predicate closed under `addEdge` is preserved by the whole of
pass 3. -/
theorem linkDependencies_ok (Q : SymbolGraph → Prop)
    (hQ : ∀ g x y, Q g → Q (addEdge g x y))
    (r : PathResolver) (astCache : AstCache) (fuel : Nat)
    (g : SymbolGraph) (s : ResolverState) (hg : Q g) :
    Q (linkDependencies r astCache fuel g s).1 := by
  unfold linkDependencies
  have hfile : ∀ (gs : SymbolGraph × ResolverState) (p : String × Ast),
      Q gs.1 → Q (linkFile r astCache fuel gs p.1 p.2).1 := by
    intro gs p hgs
    unfold linkFile
    have hfold : LinkMOk Q (p.2.foldlM
        (fun gs2 node =>
          match node with
          | AstNode.importDeclaration source specifiers =>
            linkImportDecl r astCache fuel p.1 gs2 source specifiers
          | _ => (Except.ok gs2 : LinkM)) gs) := by
      refine foldlM_linkOk Q _ ?_ p.2 gs hgs
      intro gs2 node hg2
      cases node with
      | importDeclaration source specifiers =>
        exact linkImportDecl_ok Q hQ r astCache fuel p.1 gs2 source specifiers hg2
      | exportNamedFrom source specifiers => exact hg2
      | exportAllFrom source => exact hg2
      | declaration name => exact hg2
      | variableDeclaration topLevel names => exact hg2
      | exportDefaultDeclaration => exact hg2
    cases hcase : p.2.foldlM
        (fun gs2 node =>
          match node with
          | AstNode.importDeclaration source specifiers =>
            linkImportDecl r astCache fuel p.1 gs2 source specifiers
          | _ => (Except.ok gs2 : LinkM)) gs with
    | ok gs2 =>
      rw [hcase] at hfold
      exact hfold
    | error e =>
      rw [hcase] at hfold
      exact hfold
  exact foldl_preserves (fun gs p hgs => hfile gs p hgs) astCache (g, s) hg

/-- Every node id matches its key and every edge set is empty: the shape of the
graph as pass 2 leaves it. -/
def BlankInv (g : SymbolGraph) : Prop :=
  NodeIdsMatchKeys g ∧ ∀ p ∈ g, p.2.dependencies = [] ∧ p.2.dependents = []

/-- The graph discovery produces (starting from a graph with the same shape) has
every edge set empty and every node id matching its key. -/
theorem discoverSymbols_blank (astCache : AstCache) (g : SymbolGraph)
    (h : BlankInv g) : BlankInv (discoverSymbols astCache g) := by
  unfold discoverSymbols
  refine foldl_preserves (P := BlankInv) ?_ astCache g h
  intro g0 entry hg0
  unfold discoverFile
  have hstep : ∀ (g1 : SymbolGraph) (name : String),
      BlankInv g1 → BlankInv (createNode g1 entry.1 name) := by
    intro g1 name hg1
    unfold createNode
    by_cases hc : (g1.lookup (entry.1 ++ "#" ++ name)).isSome = true
    · rw [if_pos hc]
      exact hg1
    · rw [if_neg hc]
      constructor
      · intro p hp
        rcases List.mem_append.1 hp with hp1 | hp2
        · exact hg1.1 p hp1
        · rcases List.mem_singleton.1 hp2 with rfl
          rfl
      · intro p hp
        rcases List.mem_append.1 hp with hp1 | hp2
        · exact hg1.2 p hp1
        · rcases List.mem_singleton.1 hp2 with rfl
          exact ⟨rfl, rfl⟩
  have hfile : BlankInv (if (g0.lookup entry.1).isSome = true then g0
        else g0 ++ [(entry.1, ⟨entry.1, entry.1, "(file)", [], []⟩)]) := by
    by_cases hc : (g0.lookup entry.1).isSome = true
    · rw [if_pos hc]
      exact hg0
    · rw [if_neg hc]
      constructor
      · intro p hp
        rcases List.mem_append.1 hp with hp1 | hp2
        · exact hg0.1 p hp1
        · rcases List.mem_singleton.1 hp2 with rfl
          rfl
      · intro p hp
        rcases List.mem_append.1 hp with hp1 | hp2
        · exact hg0.2 p hp1
        · rcases List.mem_singleton.1 hp2 with rfl
          exact ⟨rfl, rfl⟩
  refine foldl_preserves (P := BlankInv) ?_ entry.2 _ hfile
  intro g1 node hg1
  cases node with
  | declaration name => exact hstep g1 name hg1
  | variableDeclaration topLevel names =>
    cases topLevel with
    | false => exact hg1
    | true => exact foldl_preserves (fun g2 n hg2 => hstep g2 n hg2) names g1 hg1
  | exportDefaultDeclaration => exact hstep g1 "default" hg1
  | importDeclaration source specifiers => exact hg1
  | exportNamedFrom source specifiers => exact hg1
  | exportAllFrom source => exact hg1

/-- C3: in every graph the build entry point produces, edges are symmetric —
for all nodes A and B of the graph, B's id is among A's dependencies exactly
when A's id is among B's dependents. Discovery creates nodes with empty edge
sets only, and the single edge-creating operation of linking records both sides
of an edge together, so no one-sided edge can ever appear. -/
theorem c3_symmetric_edges (fileIndexKeys : List String) (astCache : AstCache)
    (aliasMap : List (String × String)) :
    SymEdges (buildSymbolGraph fileIndexKeys astCache aliasMap).1 := by
  unfold buildSymbolGraph
  dsimp only
  have hblank := discoverSymbols_blank astCache []
    ⟨fun p hp => absurd hp (List.not_mem_nil p), fun p hp => absurd hp (List.not_mem_nil p)⟩
  have hinv : EdgeInv (discoverSymbols astCache []) := by
    refine ⟨hblank.1, ?_⟩
    intro a ha b hb
    rw [(hblank.2 a ha).1, (hblank.2 b hb).2]
    simp
  have := linkDependencies_ok EdgeInv (fun g x y hg => addEdge_edgeInv g x y hg)
    ⟨fileIndexKeys, aliasMap⟩ astCache (linkFuel astCache) (discoverSymbols astCache [])
    ⟨[], []⟩ hinv
  exact this.2

/-! ## File-node totality (C8) -/

/-- A lookup succeeds exactly when the key occurs among the graph's keys. -/
theorem lookup_isSome_iff (g : SymbolGraph) (k : String) :
    ((g.lookup k).isSome = true) ↔ k ∈ g.map Prod.fst := by
  induction g with
  | nil => simp
  | cons p g ih =>
    obtain ⟨k0, n0⟩ := p
    by_cases h : k = k0
    · subst h
      simp [List.lookup]
    · have hb : (k == k0) = false := by simp [h]
      simp [List.lookup, hb, ih]
      exact fun hkk => absurd hkk h

/-- Appending entries does not disturb a successful lookup. -/
theorem lookup_append_some (g l : SymbolGraph) (k : String) (v : SymbolNode)
    (h : g.lookup k = some v) : (g ++ l).lookup k = some v := by
  induction g with
  | nil => simp [List.lookup] at h
  | cons p g ih =>
    obtain ⟨k0, n0⟩ := p
    by_cases hk : k = k0
    · subst hk
      simp only [List.cons_append, List.lookup, beq_self_eq_true] at h ⊢
      exact h
    · have hb : (k == k0) = false := by simp [hk]
      simp only [List.cons_append, List.lookup, hb] at h ⊢
      exact ih h

/-- A lookup that fails on the front list falls through to the appended one. -/
theorem lookup_append_none (g l : SymbolGraph) (k : String)
    (h : g.lookup k = none) : (g ++ l).lookup k = l.lookup k := by
  induction g with
  | nil => simp
  | cons p g ih =>
    obtain ⟨k0, n0⟩ := p
    by_cases hk : k = k0
    · subst hk
      simp only [List.lookup, beq_self_eq_true] at h
      exact absurd h (by simp)
    · have hb : (k == k0) = false := by simp [hk]
      simp only [List.cons_append, List.lookup, hb] at h ⊢
      exact ih h

/-- The filter of pass 1 (1_buildAstCache.ts): only paths matching
`/\.(ts|tsx|js|jsx)$/` are parsed into the cache. -/
def isParseablePath (p : String) : Bool :=
  strEndsWith p ".ts" || strEndsWith p ".tsx" || strEndsWith p ".js" || strEndsWith p ".jsx"

/-- The names under which `discoverFile` creates symbol nodes for a file:
visited declarations, top-level `Identifier` variable declarators, and
`default` for a default export. -/
def declaredNames (ast : Ast) : List String :=
  ast.flatMap fun node =>
    match node with
    | AstNode.declaration name => [name]
    | AstNode.variableDeclaration true names => names
    | AstNode.exportDefaultDeclaration => ["default"]
    | _ => []

/-- Preservation of a predicate along a left fold, with membership of the
element available to each step. -/
theorem foldl_preserves_mem {α β : Type} {P : β → Prop} {f : β → α → β} :
    ∀ l : List α, (∀ b a, a ∈ l → P b → P (f b a)) → ∀ b, P b → P (l.foldl f b) := by
  intro l
  induction l with
  | nil => intro _ b hb; exact hb
  | cons a l ih =>
    intro h b hb
    exact ih (fun b1 a1 ha1 => h b1 a1 (List.mem_cons_of_mem _ ha1)) _
      (h b a (List.mem_cons_self _ _) hb)

/-- The character data of a symbol id. -/
theorem symbolId_data (a b : String) :
    (a ++ "#" ++ b).data = a.data ++ '#' :: b.data := by
  obtain ⟨da⟩ := a
  obtain ⟨db⟩ := b
  simp [String.instAppend, String.append]

/-- A dotted suffix cannot end a symbol id whose symbol name is dot-free: the
suffix would have to reach across the `#` separator or fit inside the name. -/
theorem symbolId_no_ext (fp1 name : String) (hname : name.data.contains '.' = false)
    (ed : List Char) (hdot : '.' ∈ ed) (hhash : '#' ∉ ed)
    (hsuf : ed <:+ (fp1 ++ "#" ++ name).data) : False := by
  rw [symbolId_data] at hsuf
  have hsuf2 : ('#' :: name.data) <:+ (fp1.data ++ '#' :: name.data) := ⟨fp1.data, rfl⟩
  rcases List.suffix_or_suffix_of_suffix hsuf hsuf2 with h | h
  · rcases List.suffix_cons_iff.1 h with heq | h2
    · exact hhash (heq ▸ List.mem_cons_self _ _)
    · have hdot2 : '.' ∈ name.data := h2.subset hdot
      have : '.' ∉ name.data := by simpa using hname
      exact this hdot2
  · exact hhash (h.subset (List.mem_cons_self _ _))

/-- A parseable path — one ending in a source extension — is never equal to a
symbol id `fp#name` whose name contains no dot. Babel identifiers never contain
a dot, so within the pipeline a cached file path can never collide with a
symbol node id. -/
theorem parseable_ne_symbolId (k fp1 name : String) (hk : isParseablePath k = true)
    (hname : name.data.contains '.' = false) : k ≠ fp1 ++ "#" ++ name := by
  intro heq
  unfold isParseablePath strEndsWith at hk
  simp only [Bool.or_eq_true] at hk
  rcases hk with ((h | h) | h) | h <;>
    exact symbolId_no_ext fp1 name hname _ (by decide) (by decide)
      (heq ▸ List.isSuffixOf_iff_suffix.1 h)

/-- `createNode` leaves every successful lookup unchanged (it only ever appends
an entry under a fresh key). -/
theorem createNode_lookup_some (g : SymbolGraph) (fp name k : String) (v : SymbolNode)
    (h : g.lookup k = some v) : (createNode g fp name).lookup k = some v := by
  unfold createNode
  by_cases hc : (g.lookup (fp ++ "#" ++ name)).isSome = true
  · rw [if_pos hc]
    exact h
  · rw [if_neg hc]
    exact lookup_append_some g _ k v h

/-- The tail fold of `discoverFile` (symbol-node creation) leaves every
successful lookup unchanged. -/
theorem discoverFold_lookup_some (fp : String) (ast : Ast) (k : String) (v : SymbolNode) :
    ∀ g : SymbolGraph, g.lookup k = some v →
      (ast.foldl
        (fun g node =>
          match node with
          | AstNode.declaration name => createNode g fp name
          | AstNode.variableDeclaration true names =>
            names.foldl (fun g n => createNode g fp n) g
          | AstNode.exportDefaultDeclaration => createNode g fp "default"
          | _ => g)
        g).lookup k = some v := by
  intro g hg
  refine foldl_preserves (P := fun g' => g'.lookup k = some v) ?_ ast g hg
  intro g1 node hg1
  cases node with
  | declaration name => exact createNode_lookup_some g1 fp name k v hg1
  | variableDeclaration topLevel names =>
    cases topLevel with
    | false => exact hg1
    | true =>
      exact foldl_preserves (P := fun g' => g'.lookup k = some v)
        (fun g2 n hg2 => createNode_lookup_some g2 fp n k v hg2) names g1 hg1
  | exportDefaultDeclaration => exact createNode_lookup_some g1 fp "default" k v hg1
  | importDeclaration source specifiers => exact hg1
  | exportNamedFrom source specifiers => exact hg1
  | exportAllFrom source => exact hg1

/-- `discoverFile` leaves every successful lookup unchanged. -/
theorem discoverFile_lookup_some (g : SymbolGraph) (fp : String) (ast : Ast)
    (k : String) (v : SymbolNode) (h : g.lookup k = some v) :
    (discoverFile g fp ast).lookup k = some v := by
  unfold discoverFile
  refine discoverFold_lookup_some fp ast k v _ ?_
  by_cases hc : (g.lookup fp).isSome = true
  · rw [if_pos hc]
    exact h
  · rw [if_neg hc]
    exact lookup_append_some g _ k v h

/-- `discoverSymbols` leaves every successful lookup unchanged. -/
theorem discoverSymbols_lookup_some (astCache : AstCache) (g : SymbolGraph)
    (k : String) (v : SymbolNode) (h : g.lookup k = some v) :
    (discoverSymbols astCache g).lookup k = some v := by
  unfold discoverSymbols
  exact foldl_preserves (P := fun g' => g'.lookup k = some v)
    (fun g1 p hg1 => discoverFile_lookup_some g1 p.1 p.2 k v hg1) astCache g h

/-- Processing a file whose path is absent from the graph creates its
file-level node. -/
theorem discoverFile_creates (g : SymbolGraph) (fp : String) (ast : Ast)
    (h : g.lookup fp = none) :
    (discoverFile g fp ast).lookup fp = some ⟨fp, fp, "(file)", [], []⟩ := by
  unfold discoverFile
  refine discoverFold_lookup_some fp ast fp _ _ ?_
  rw [if_neg (by simp [h])]
  rw [lookup_append_none g _ fp h]
  simp [List.lookup]

/-- Any key of `createNode`'s output is a key of the input or the freshly
assembled symbol id. -/
theorem createNode_keys (g : SymbolGraph) (fp name k : String)
    (hk : k ∈ (createNode g fp name).map Prod.fst) :
    k ∈ g.map Prod.fst ∨ k = fp ++ "#" ++ name := by
  unfold createNode at hk
  by_cases hc : (g.lookup (fp ++ "#" ++ name)).isSome = true
  · rw [if_pos hc] at hk
    exact Or.inl hk
  · rw [if_neg hc] at hk
    rw [List.map_append] at hk
    rcases List.mem_append.1 hk with h1 | h2
    · exact Or.inl h1
    · simp at h2
      exact Or.inr h2

/-- Any key of `discoverFile`'s output is a key of the input, the file path
itself, or the symbol id of one of the file's declared names. -/
theorem discoverFile_keys (g : SymbolGraph) (fp : String) (ast : Ast) :
    ∀ k ∈ (discoverFile g fp ast).map Prod.fst,
      k ∈ g.map Prod.fst ∨ k = fp ∨ ∃ name ∈ declaredNames ast, k = fp ++ "#" ++ name := by
  unfold discoverFile
  have hstep : ∀ (g1 : SymbolGraph) (name : String), name ∈ declaredNames ast →
      (∀ k ∈ g1.map Prod.fst, k ∈ g.map Prod.fst ∨ k = fp ∨
        ∃ n ∈ declaredNames ast, k = fp ++ "#" ++ n) →
      ∀ k ∈ (createNode g1 fp name).map Prod.fst,
        k ∈ g.map Prod.fst ∨ k = fp ∨ ∃ n ∈ declaredNames ast, k = fp ++ "#" ++ n := by
    intro g1 name hname hg1 k hk
    rcases createNode_keys g1 fp name k hk with h1 | h2
    · exact hg1 k h1
    · exact Or.inr (Or.inr ⟨name, hname, h2⟩)
  dsimp only
  refine foldl_preserves_mem
    (P := fun g1 : SymbolGraph => ∀ k ∈ g1.map Prod.fst,
      k ∈ g.map Prod.fst ∨ k = fp ∨ ∃ n ∈ declaredNames ast, k = fp ++ "#" ++ n)
    ast ?_ _ ?_
  · intro g1 node hnode hg1
    cases node with
    | declaration name =>
      exact hstep g1 name (List.mem_flatMap.2 ⟨AstNode.declaration name, hnode, by simp⟩) hg1
    | variableDeclaration topLevel names =>
      cases topLevel with
      | false => exact hg1
      | true =>
        refine foldl_preserves_mem
          (P := fun g2 : SymbolGraph => ∀ k ∈ g2.map Prod.fst,
            k ∈ g.map Prod.fst ∨ k = fp ∨ ∃ n2 ∈ declaredNames ast, k = fp ++ "#" ++ n2)
          names ?_ g1 hg1
        intro g2 n hn hg2
        exact hstep g2 n
          (List.mem_flatMap.2 ⟨AstNode.variableDeclaration true names, hnode, by simpa⟩) hg2
    | exportDefaultDeclaration =>
      exact hstep g1 "default"
        (List.mem_flatMap.2 ⟨AstNode.exportDefaultDeclaration, hnode, by simp⟩) hg1
    | importDeclaration source specifiers => exact hg1
    | exportNamedFrom source specifiers => exact hg1
    | exportAllFrom source => exact hg1
  · intro k hk
    by_cases hc : (g.lookup fp).isSome = true
    · rw [if_pos hc] at hk
      exact Or.inl hk
    · rw [if_neg hc] at hk
      rw [List.map_append] at hk
      rcases List.mem_append.1 hk with h1 | h2
      · exact Or.inl h1
      · simp at h2
        exact Or.inr (Or.inl h2)

/-- `createNode` keeps the key list duplicate-free: it only appends a key whose
lookup just failed. -/
theorem createNode_nodup (g : SymbolGraph) (fp name : String)
    (h : (g.map Prod.fst).Nodup) : ((createNode g fp name).map Prod.fst).Nodup := by
  unfold createNode
  by_cases hc : (g.lookup (fp ++ "#" ++ name)).isSome = true
  · rw [if_pos hc]
    exact h
  · rw [if_neg hc]
    rw [List.map_append]
    have hnot : (fp ++ "#" ++ name) ∉ g.map Prod.fst := by
      intro hmem
      exact hc ((lookup_isSome_iff g _).2 hmem)
    simp [List.nodup_append, h, hnot]

/-- `discoverFile` keeps the key list duplicate-free. -/
theorem discoverFile_nodup (g : SymbolGraph) (fp : String) (ast : Ast)
    (h : (g.map Prod.fst).Nodup) : ((discoverFile g fp ast).map Prod.fst).Nodup := by
  unfold discoverFile
  dsimp only
  refine foldl_preserves (P := fun g' : SymbolGraph => (g'.map Prod.fst).Nodup) ?_ ast _ ?_
  · intro g1 node hg1
    cases node with
    | declaration name => exact createNode_nodup g1 fp name hg1
    | variableDeclaration topLevel names =>
      cases topLevel with
      | false => exact hg1
      | true =>
        exact foldl_preserves (P := fun g' : SymbolGraph => (g'.map Prod.fst).Nodup)
          (fun g2 n hg2 => createNode_nodup g2 fp n hg2) names g1 hg1
    | exportDefaultDeclaration => exact createNode_nodup g1 fp "default" hg1
    | importDeclaration source specifiers => exact hg1
    | exportNamedFrom source specifiers => exact hg1
    | exportAllFrom source => exact hg1
  · by_cases hc : (g.lookup fp).isSome = true
    · rw [if_pos hc]
      exact h
    · rw [if_neg hc]
      dsimp only
      rw [List.map_append]
      have hnot : fp ∉ g.map Prod.fst := by
        intro hmem
        exact hc ((lookup_isSome_iff g _).2 hmem)
      simp [List.nodup_append, h, hnot]

/-- `discoverSymbols` keeps the key list duplicate-free. -/
theorem discoverSymbols_nodup (astCache : AstCache) (g : SymbolGraph)
    (h : (g.map Prod.fst).Nodup) :
    ((discoverSymbols astCache g).map Prod.fst).Nodup := by
  unfold discoverSymbols
  exact foldl_preserves (P := fun g' : SymbolGraph => (g'.map Prod.fst).Nodup)
    (fun g1 p hg1 => discoverFile_nodup g1 p.1 p.2 hg1) astCache g h

/-- The totality of file-level nodes over discovery: provided the cache keys
are duplicate-free parseable paths (pass 1 only caches paths matching
`/\.(ts|tsx|js|jsx)$/`), every declared name is dot-free (a Babel `Identifier`
never contains a dot), and none of the cache keys is already a key of the
starting graph, every cached file ends up with its file-level node, fields
intact: a parseable path can never collide with a symbol id, so its file node
is always created. -/
theorem discoverSymbols_file_node :
    ∀ (astCache : AstCache) (g : SymbolGraph),
      (∀ fp ∈ astCache.map Prod.fst, isParseablePath fp = true) →
      (∀ p ∈ astCache, ∀ name ∈ declaredNames p.2, name.data.contains '.' = false) →
      (astCache.map Prod.fst).Nodup →
      (∀ k, (g.lookup k).isSome = true → k ∉ astCache.map Prod.fst) →
      ∀ fp ∈ astCache.map Prod.fst,
        (discoverSymbols astCache g).lookup fp = some ⟨fp, fp, "(file)", [], []⟩ := by
  intro astCache
  induction astCache with
  | nil => simp
  | cons entry rest ih =>
    intro g hparse hnames hnodup hdis fp hfp
    have hstep : discoverSymbols (entry :: rest) g =
        discoverSymbols rest (discoverFile g entry.1 entry.2) := rfl
    rw [hstep]
    have hmem1 : entry.1 ∈ (entry :: rest).map Prod.fst := by simp
    have hnone : g.lookup entry.1 = none := by
      cases hcase : g.lookup entry.1 with
      | none => rfl
      | some v => exact absurd hmem1 (hdis entry.1 (by rw [hcase]; rfl))
    have hparse2 : ∀ p ∈ rest.map Prod.fst, isParseablePath p = true := by
      intro p hp
      exact hparse p (by simp [hp])
    rcases List.mem_cons.1 (by simpa using hfp : fp ∈ entry.1 :: rest.map Prod.fst)
        with heq | hfp2
    · rw [heq]
      exact discoverSymbols_lookup_some rest _ entry.1 _
        (discoverFile_creates g entry.1 entry.2 hnone)
    · refine ih (discoverFile g entry.1 entry.2) hparse2
        (fun p hp name hn => hnames p (List.mem_cons_of_mem _ hp) name hn)
        (List.Nodup.of_cons (by simpa using hnodup)) ?_ fp hfp2
      intro k hk hkrest
      rcases discoverFile_keys g entry.1 entry.2 k ((lookup_isSome_iff _ _).1 hk) with h1 | h2 | h3
      · exact hdis k ((lookup_isSome_iff _ _).2 h1) (by simp [hkrest])
      · subst h2
        have hni : entry.1 ∉ rest.map Prod.fst := (List.nodup_cons.1 (by simpa using hnodup)).1
        exact hni hkrest
      · obtain ⟨name, hnmem, heqk⟩ := h3
        exact parseable_ne_symbolId k entry.1 name (hparse2 k hkrest)
          (hnames entry (List.mem_cons_self _ _) name hnmem) heqk

/-- The identity-bearing fields of a node: id, file path and symbol name —
everything except the mutable edge sets. -/
def nodeSig (n : SymbolNode) : String × String × String :=
  (n.id, n.filePath, n.symbolName)

/-- `addEdge` never changes the key list. -/
theorem addEdge_keys (g : SymbolGraph) (x y : String) :
    (addEdge g x y).map Prod.fst = g.map Prod.fst := by
  rw [addEdge_eq_map, List.map_map]
  congr 1

/-- `addEdge` never changes a node's identity fields. -/
theorem lookup_addEdge_sig (g : SymbolGraph) (x y k : String) :
    ((addEdge g x y).lookup k).map nodeSig = (g.lookup k).map nodeSig := by
  rw [addEdge_eq_map]
  induction g with
  | nil => rfl
  | cons p g ih =>
    obtain ⟨k0, n0⟩ := p
    by_cases h : k = k0
    · subst h
      simp only [List.map_cons, List.lookup, beq_self_eq_true]
      rfl
    · have hb : (k == k0) = false := by simp [h]
      simp only [List.map_cons, List.lookup, hb]
      exact ih

/-- C8: file-node totality. For every file in the AST cache, the graph the
build entry point produces holds exactly one node keyed by that file's path,
and that node is the file-level node (`id = filePath`, `symbolName = "(file)"`)
— even when the file declares nothing and imports nothing. The hypotheses
record exactly what pass 1 and the parser guarantee about the cache: its `Map`
keys are distinct; every key passed the `/\.(ts|tsx|js|jsx)$/` filter; and
declared symbol names are Babel identifiers, which never contain a dot. Under
these, a file path can never collide with a symbol id `otherPath#name`
(`parseable_ne_symbolId`), so every file-level node is created and survives. -/
theorem c8_file_node_totality (fileIndexKeys : List String) (astCache : AstCache)
    (aliasMap : List (String × String))
    (hnodup : (astCache.map Prod.fst).Nodup)
    (hparse : ∀ fp ∈ astCache.map Prod.fst, isParseablePath fp = true)
    (hnames : ∀ p ∈ astCache, ∀ name ∈ declaredNames p.2, name.data.contains '.' = false) :
    ∀ fp ∈ astCache.map Prod.fst,
      ((buildSymbolGraph fileIndexKeys astCache aliasMap).1.lookup fp).map nodeSig =
        some (fp, fp, "(file)") ∧
      ((buildSymbolGraph fileIndexKeys astCache aliasMap).1.map Prod.fst).count fp = 1 := by
  intro fp hfp
  unfold buildSymbolGraph
  dsimp only
  have hdisc : (discoverSymbols astCache []).lookup fp = some ⟨fp, fp, "(file)", [], []⟩ :=
    discoverSymbols_file_node astCache [] hparse hnames hnodup
      (fun k hk => by simp [List.lookup] at hk) fp hfp
  have hnodup0 : ((discoverSymbols astCache []).map Prod.fst).Nodup :=
    discoverSymbols_nodup astCache [] (by simp)
  have hQ := linkDependencies_ok
    (fun g' => g'.map Prod.fst = (discoverSymbols astCache []).map Prod.fst ∧
      (g'.lookup fp).map nodeSig = some (fp, fp, "(file)"))
    (fun g x y hg => by
      refine ⟨?_, ?_⟩
      · rw [addEdge_keys]
        exact hg.1
      · rw [lookup_addEdge_sig]
        exact hg.2)
    ⟨fileIndexKeys, aliasMap⟩ astCache (linkFuel astCache) (discoverSymbols astCache [])
    ⟨[], []⟩ ⟨rfl, by rw [hdisc]; rfl⟩
  refine ⟨hQ.2, ?_⟩
  rw [hQ.1]
  have hmem : fp ∈ (discoverSymbols astCache []).map Prod.fst :=
    (lookup_isSome_iff _ fp).1 (by rw [hdisc]; rfl)
  exact List.count_eq_one_of_mem hnodup0 hmem

/-- C8 witness: a single empty file named `a.ts` yields a graph whose sole node
is that file's file-level node. -/
theorem c8_file_node_totality_witness :
    ((buildSymbolGraph ["a.ts"] [("a.ts", [])] []).1.lookup "a.ts").map nodeSig =
        some ("a.ts", "a.ts", "(file)") ∧
      ((buildSymbolGraph ["a.ts"] [("a.ts", [])] []).1.map Prod.fst).count "a.ts" = 1 :=
  c8_file_node_totality ["a.ts"] [("a.ts", [])] [] (by decide) (by decide) (by decide)
    "a.ts" (by decide)

end ContextSlicer
